import Mathlib

/-!
Shallow embedding of `automata/tools/search/symbol_rank/symbol_embedding_map.py`.

The module under verification owns a mapping from code symbols to embedding
vectors, builds and incrementally updates it through two external
collaborators (a `SymbolConverter` resolving a symbol to its source text and
an embedding provider turning text into a vector), filters irrelevant
symbols, derives a pairwise similarity matrix, and persists the mapping to a
file.

Modelling conventions:
- A Python `dict` is an insertion-ordered association list with unique keys;
  `d[k] = v` keeps the position of an existing key and appends a new one.
- Exceptions are `Except PyError`; code that catches exceptions per item is a
  total function (nothing escapes), mirroring the `try/except` in the loops.
- External collaborators (`convert_to_fst_object` composed with `str`, the
  provider's `get_embedding` and `cosine_similarity`, and the kind
  classifier `Symbol.symbol_kind_by_suffix` which lives outside the sources
  at hand) are explicit function parameters.
- The file system is an association list from path to decoded file content.
- Vectors hold `Rat` so every statement is decidable on concrete inputs.
- `update_embeddings` additionally returns the list of provider calls it
  performed (symbol paired with the text sent), which the Python code only
  makes observable through the provider; the first component is exactly the
  state the Python method leaves behind.
-/

namespace AutomataSearch

/-- Python-style errors surfaced by the module. -/
inductive PyError where
  | valueError (msg : String)
  | attributeError (name : String)
  | otherError (msg : String)
deriving DecidableEq

/-- Modelled from the spec: `Symbol` (in `local_types`, absent from the given
sources) is an immutable identity value; two symbols are equal iff their URIs
are equal, and the URI round-trips losslessly through its string form. -/
structure Symbol where
  uri : String
deriving DecidableEq

/-- Modelled from the spec: `Symbol.from_string` parses the identity string
back into a symbol; the round-trip `from_string (s.uri) = s` is lossless. -/
def Symbol.from_string (s : String) : Symbol := ⟨s⟩

/-- Modelled from the spec: the closed kind enumeration
(`Descriptor.PythonKinds` in `local_types`, absent from the given sources).
`MacroKind` stands for the kind the source calls `Macro`. -/
inductive PythonKinds where
  | Local
  | Value
  | Meta
  | MacroKind
  | Parameter
  | TypeParameter
  | Module
  | Class
  | Method
deriving DecidableEq

/-- Modelled from the spec: `SymbolEmbedding` (in `local_types`) bundles a
symbol, its vector and the exact source text the vector was computed from. -/
structure SymbolEmbedding where
  symbol : Symbol
  vector : List Rat
  source_code : String
deriving DecidableEq

/-- The Python `dict` mapping `Symbol → SymbolEmbedding`: an
insertion-ordered association list with unique keys. -/
abbrev EMap := List (Symbol × SymbolEmbedding)

/-- `SymbolConverter.convert_to_fst_object` composed with `str`, as used by
the module: resolves a symbol to its source text, or raises. -/
abbrev SymbolConverter := Symbol → Except PyError String

/-- `EmbeddingsProvider.get_embedding`: text to vector, or raises. -/
abbrev EmbedFn := String → Except PyError (List Rat)

/-- The provider's pairwise `cosine_similarity`. -/
abbrev SimFn := List Rat → List Rat → Rat

/-- Kind classifier `Symbol.symbol_kind_by_suffix` (derived deterministically
from the identity string, per the spec). -/
abbrev KindFn := Symbol → PythonKinds

/-- Association-list lookup: `k in d` / `d[k]`. -/
def alookup {α β : Type} [DecidableEq α] : List (α × β) → α → Option β
  | [], _ => none
  | (k, v) :: rest, key => if key = k then some v else alookup rest key

/-- Association-list store `d[key] = val`: replace in place if the key is
present (keeping its position), append otherwise — Python dict semantics. -/
def aupdate {α β : Type} [DecidableEq α] : List (α × β) → α → β → List (α × β)
  | [], key, val => [(key, val)]
  | (k, v) :: rest, key, val =>
      if key = k then (k, val) :: rest else (k, v) :: aupdate rest key val

/-- The state of a `SymbolEmbeddingMap` instance.  Attributes that `__init__`
may leave unset (Python then raises `AttributeError` on access) are `Option`s
with `none` meaning "attribute not set". -/
structure SymbolEmbeddingMap where
  embedding_map : Option EMap
  index_to_symbol : Option (List (Nat × Symbol))
  symbol_to_index : Option (List (Symbol × Nat))
deriving DecidableEq

/-- `needle in haystack` on character lists (Python substring test). -/
def charsIsPrefixOf : List Char → List Char → Bool
  | [], _ => true
  | _ :: _, [] => false
  | a :: as, b :: bs => a = b && charsIsPrefixOf as bs

/-- Substring containment on character lists. -/
def charsContains : List Char → List Char → Bool
  | [], pat => charsIsPrefixOf pat []
  | h :: t, pat => charsIsPrefixOf pat (h :: t) || charsContains t pat

/-- Python `pat in hay` for strings. -/
def strContains (hay pat : String) : Bool := charsContains hay.data pat.data

/-- Is the derived kind one of the six excluded kinds?  (The disjunction in
`_filter_symbols`.) -/
def isExcludedKind (k : PythonKinds) : Bool :=
  k = PythonKinds.Local ∨ k = PythonKinds.Value ∨ k = PythonKinds.Meta ∨
    k = PythonKinds.MacroKind ∨ k = PythonKinds.Parameter ∨
    k = PythonKinds.TypeParameter

/-- `SymbolEmbeddingMap._filter_symbols`: drop a symbol when its URI contains
one of four literal substrings or its derived kind is excluded; keep the
rest in order. -/
def filter_symbols (kindOf : KindFn) : List Symbol → List Symbol
  | [] => []
  | s :: rest =>
      if strContains s.uri "__init__" then filter_symbols kindOf rest
      else if strContains s.uri "setup" then filter_symbols kindOf rest
      else if strContains s.uri "local" then filter_symbols kindOf rest
      else if strContains s.uri "test" then filter_symbols kindOf rest
      else if isExcludedKind (kindOf s) then filter_symbols kindOf rest
      else s :: filter_symbols kindOf rest

/-- One iteration of the loop in `_build_embedding_map`: resolve the source
text, request an embedding, store the entry; any exception is caught and the
map is left as it was. -/
def buildStep (embed : EmbedFn) (symbol_converter : SymbolConverter)
    (m : EMap) (s : Symbol) : EMap :=
  match symbol_converter s with
  | Except.error _ => m
  | Except.ok src =>
      match embed src with
      | Except.error _ => m
      | Except.ok v => aupdate m s ⟨s, v, src⟩

/-- `SymbolEmbeddingMap._build_embedding_map`: filter the candidates, then
embed each survivor; per-symbol failures are caught and logged, so the
function is total and never raises. -/
def build_embedding_map (embed : EmbedFn) (kindOf : KindFn)
    (symbol_converter : SymbolConverter) (defined_symbols : List Symbol) :
    EMap :=
  (filter_symbols kindOf defined_symbols).foldl
    (buildStep embed symbol_converter) []

/-- One iteration of the loop in `update_embeddings`, threading the map and
the trace of provider calls.  The staleness test is the source's
`symbol not in self.embedding_map or
self.embedding_map[symbol].source_code != symbol_source`; any exception
(from the converter or the provider) is caught and the state kept. -/
def updateStep (embed : EmbedFn) (symbol_converter : SymbolConverter)
    (acc : EMap × List (Symbol × String)) (s : Symbol) :
    EMap × List (Symbol × String) :=
  match symbol_converter s with
  | Except.error _ => acc
  | Except.ok src =>
      let stale :=
        match alookup acc.1 s with
        | none => true
        | some e => e.source_code ≠ src
      if stale then
        match embed src with
        | Except.error _ => acc
        | Except.ok v => (aupdate acc.1 s ⟨s, v, src⟩, acc.2 ++ [(s, src)])
      else acc

/-- `SymbolEmbeddingMap.update_embeddings`.  When `embedding_map` was never
initialized the attribute access inside each iteration raises
`AttributeError`, which the per-symbol handler catches, so the state is
unchanged and the provider is never called.  Returns the new state together
with the list of provider calls made. -/
def update_embeddings (embed : EmbedFn) (st : SymbolEmbeddingMap)
    (symbol_converter : SymbolConverter) (symbols_to_update : List Symbol) :
    SymbolEmbeddingMap × List (Symbol × String) :=
  match st.embedding_map with
  | none => (st, [])
  | some m =>
      let r := symbols_to_update.foldl (updateStep embed symbol_converter)
        (m, [])
      ({ st with embedding_map := some r.1 }, r.2)

/-- The matrix is n×n. -/
def matShape (m : List (List Rat)) (n : Nat) : Prop :=
  m.length = n ∧ ∀ r ∈ m, r.length = n

/-- Matrix cell write `results[i][j] = v` (out-of-range writes are no-ops,
as in the in-range-only use below). -/
def lset {α : Type} : List α → Nat → α → List α
  | [], _, _ => []
  | _ :: t, 0, v => v :: t
  | h :: t, n + 1, v => h :: lset t n v

/-- Matrix cell read `results[i][j]` (0 when out of range; all reads below
are in range). -/
def matEntry (m : List (List Rat)) (i j : Nat) : Rat :=
  (m.getD i []).getD j 0

/-- `results[i][j] = v` on the list-of-lists matrix. -/
def matSet (m : List (List Rat)) (i j : Nat) (v : Rat) : List (List Rat) :=
  lset m i (lset (m.getD i []) j v)

/-- The body of the double loop in
`EmbeddingsProvider.calculate_similarity_matrix`: skip when `i ≥ j`,
otherwise write the similarity at `[i][j]` and mirror the just-written value
to `[j][i]`. -/
def simStep (sim : SimFn) (embeddings : List (List Rat)) (i : Nat)
    (acc : List (List Rat)) (j : Nat) : List (List Rat) :=
  if i ≥ j then acc
  else
    let s := sim (embeddings.getD i []) (embeddings.getD j [])
    let acc1 := matSet acc i j s
    matSet acc1 j i (matEntry acc1 i j)

/-- `EmbeddingsProvider.calculate_similarity_matrix`: start from an n×n zero
matrix and fill the strict upper triangle, mirroring it to the lower. -/
def calculate_similarity_matrix (sim : SimFn)
    (embeddings : List (List Rat)) : List (List Rat) :=
  let n := embeddings.length
  (List.range n).foldl
    (fun acc i => (List.range n).foldl (simStep sim embeddings i) acc)
    (List.replicate n (List.replicate n (0 : Rat)))

/-- `SymbolEmbeddingMap.generate_similarity_matrix`: project the mapping (in
iteration order) to its vectors, refresh the two index caches, and return
the similarity matrix together with the updated instance.  Accessing a
never-initialized `embedding_map` raises, uncaught. -/
def generate_similarity_matrix (sim : SimFn) (st : SymbolEmbeddingMap) :
    Except PyError (List (List Rat) × SymbolEmbeddingMap) :=
  match st.embedding_map with
  | none => Except.error (PyError.attributeError "embedding_map")
  | some m =>
      let symbols := m.map Prod.fst
      let embeddings := m.map (fun kv => kv.2.vector)
      let st' := { st with
        index_to_symbol := some symbols.enum
        symbol_to_index := some (symbols.enum.map (fun p => (p.2, p.1))) }
      Except.ok (calculate_similarity_matrix sim embeddings, st')

/-- `SymbolEmbeddingMap.__init__`.  The two mode flags are checked for
conflict first; in build mode the `symbol_converter` kwarg is looked up
before `all_defined_symbols`, and a missing kwarg's `KeyError` is re-raised
as a `ValueError` naming the argument; in load mode the `embedding_map`
kwarg is adopted directly; with neither flag `embedding_map` is left unset.
(The Python message interpolates `str(KeyError)`, which quotes the name; the
model keeps just the name.) -/
def init (embed : EmbedFn) (kindOf : KindFn)
    (build_new_embedding_map : Bool) (load_embedding_map : Bool)
    (symbol_converter : Option SymbolConverter)
    (all_defined_symbols : Option (List Symbol))
    (embedding_map : Option EMap) : Except PyError SymbolEmbeddingMap :=
  if build_new_embedding_map && load_embedding_map then
    Except.error (PyError.valueError
      "Cannot specify both build_new_embedding_map and load_embedding_map")
  else if build_new_embedding_map then
    match symbol_converter with
    | none => Except.error (PyError.valueError
        "Missing required argument: symbol_converter")
    | some conv =>
        match all_defined_symbols with
        | none => Except.error (PyError.valueError
            "Missing required argument: all_defined_symbols")
        | some syms =>
            Except.ok
              { embedding_map := some (build_embedding_map embed kindOf conv syms)
                index_to_symbol := none
                symbol_to_index := none }
  else if load_embedding_map then
    match embedding_map with
    | none => Except.error (PyError.valueError
        "Missing required argument: embedding_map")
    | some em =>
        Except.ok
          { embedding_map := some em
            index_to_symbol := none
            symbol_to_index := none }
  else
    Except.ok
      { embedding_map := none, index_to_symbol := none, symbol_to_index := none }

/-- Modelled from the spec: the persisted file is a structured-text document
representing a string-keyed mapping from the symbol's identity string to its
(symbol, vector, source text) record; `jsonpickle` is absent from the given
sources, so a file's decoded content is modelled directly as that mapping. -/
abbrev FileContent := List (String × SymbolEmbedding)

/-- The file system: paths to decoded file contents. -/
abbrev FS := List (String × FileContent)

/-- Modelled from the spec: `jsonpickle.encode` of the dict renders each
`Symbol` key in its string identity form. -/
def encodeEmbeddingMap (m : EMap) : FileContent :=
  m.map (fun kv => (kv.1.uri, kv.2))

/-- `SymbolEmbeddingMap.save`: refuse (and touch nothing) when the path
already exists; otherwise open-for-write and serialize the mapping.  If
`embedding_map` was never set, `open(..., "w")` has already created the
empty file when the attribute access raises. -/
def save (st : SymbolEmbeddingMap) (fs : FS) (output_embedding_path : String) :
    Except PyError Unit × FS :=
  if (alookup fs output_embedding_path).isSome then
    (Except.error (PyError.valueError
      "output_embedding_path must be a path to a non-existing file."), fs)
  else
    match st.embedding_map with
    | none =>
        (Except.error (PyError.attributeError "embedding_map"),
         aupdate fs output_embedding_path [])
    | some m =>
        (Except.ok (), aupdate fs output_embedding_path (encodeEmbeddingMap m))

/-- `SymbolEmbeddingMap.load`: refuse when the path does not exist; otherwise
decode the string-keyed mapping, rebuild each key via
`Symbol.from_string`, and construct an instance in load mode.  Reading never
writes to the file system. -/
def load (embed : EmbedFn) (kindOf : KindFn) (fs : FS)
    (input_embedding_path : String) :
    Except PyError SymbolEmbeddingMap × FS :=
  match alookup fs input_embedding_path with
  | none =>
      (Except.error (PyError.valueError
        "input_embedding_path must be a path to an existing file."), fs)
  | some content =>
      let embedding_map : EMap :=
        content.map (fun kv => (Symbol.from_string kv.1, kv.2))
      (init embed kindOf false true none none (some embedding_map), fs)

/-! ### Concrete collaborator instances, used to evaluate the theorems on
closed inputs -/

/-- A kind classifier marking everything an ordinary method. -/
def kindW : KindFn := fun _ => PythonKinds.Method

/-- A concrete similarity function (product of the leading coordinates). -/
def simW : SimFn := fun x y => x.headD 0 * y.headD 0

/-- A concrete provider: fails on the text `"bad"`, otherwise returns the
one-dimensional vector holding the text's length. -/
def embedW : EmbedFn := fun t =>
  if t = "bad" then Except.error (PyError.otherError "boom")
  else Except.ok [(t.length : Rat)]

/-- A concrete converter: fails on the symbol `"x"`, otherwise resolves to
`"src_" ++ uri`. -/
def convW : SymbolConverter := fun s =>
  if s.uri = "x" then Except.error (PyError.otherError "unresolved")
  else Except.ok ("src_" ++ s.uri)

/-- A converter whose resolution of `"b"` yields text the provider rejects. -/
def convBadB : SymbolConverter := fun s =>
  if s.uri = "b" then Except.ok "bad" else Except.ok ("src_" ++ s.uri)

def symA : Symbol := ⟨"a"⟩

def symB : Symbol := ⟨"b"⟩

def symC : Symbol := ⟨"c"⟩

def symX : Symbol := ⟨"x"⟩

/-- An entry for `symA` that is up to date with respect to `convW`. -/
def embA : SymbolEmbedding := ⟨symA, [5], "src_a"⟩

/-- An entry for `symB` whose stored text is stale under `convW`. -/
def embB : SymbolEmbedding := ⟨symB, [2], "old_b"⟩

def mapW : EMap := [(symA, embA), (symB, embB)]

def stW : SymbolEmbeddingMap := ⟨some mapW, none, none⟩

/-- A file system already holding a file at `"out"`. -/
def fsW : FS := [("out", [])]

/-! ### Association-list lemmas -/

theorem alookup_aupdate {α β : Type} [DecidableEq α] (m : List (α × β))
    (k k' : α) (v : β) :
    alookup (aupdate m k v) k' = if k' = k then some v else alookup m k' := by
  induction m with
  | nil => simp [alookup, aupdate]
  | cons a rest ih =>
      obtain ⟨ka, va⟩ := a
      by_cases hk : k = ka
      · subst hk
        simp only [aupdate, if_pos rfl, alookup]
        by_cases hk' : k' = k
        · simp [hk']
        · simp [hk']
      · simp only [aupdate, if_neg hk, alookup, ih]
        by_cases h1 : k' = ka
        · subst h1
          rw [if_pos rfl, if_neg (fun h : k' = k => hk h.symm), if_pos rfl]
        · rw [if_neg h1, if_neg h1]

theorem alookup_aupdate_self {α β : Type} [DecidableEq α] (m : List (α × β))
    (k : α) (v : β) : alookup (aupdate m k v) k = some v := by
  simp [alookup_aupdate]

theorem alookup_aupdate_ne {α β : Type} [DecidableEq α] (m : List (α × β))
    {k k' : α} (v : β) (h : k' ≠ k) :
    alookup (aupdate m k v) k' = alookup m k' := by
  simp [alookup_aupdate, h]

/-! ### Lemmas on a single `update_embeddings` iteration -/

theorem updateStep_lookup_ne (embed : EmbedFn) (conv : SymbolConverter)
    (acc : EMap × List (Symbol × String)) (a : Symbol) {s : Symbol}
    (h : s ≠ a) :
    alookup (updateStep embed conv acc a).1 s = alookup acc.1 s := by
  unfold updateStep
  cases conv a with
  | error e => rfl
  | ok src =>
      dsimp only
      split
      · cases embed src with
        | error e => rfl
        | ok v => exact alookup_aupdate_ne _ _ h
      · rfl

theorem updateStep_calls_mem (embed : EmbedFn) (conv : SymbolConverter)
    (acc : EMap × List (Symbol × String)) (a : Symbol)
    (p : Symbol × String) (hp : p ∈ (updateStep embed conv acc a).2) :
    p ∈ acc.2 ∨ p.1 = a := by
  unfold updateStep at hp
  split at hp
  · exact Or.inl hp
  · dsimp only at hp
    split at hp
    · split at hp
      · exact Or.inl hp
      · dsimp only at hp
        rcases List.mem_append.mp hp with h | h
        · exact Or.inl h
        · rcases List.mem_singleton.mp h with rfl
          exact Or.inr rfl
    · exact Or.inl hp

theorem updateStep_mono (embed : EmbedFn) (conv : SymbolConverter)
    (acc : EMap × List (Symbol × String)) (a : Symbol) {s : Symbol}
    (h : (alookup acc.1 s).isSome) :
    (alookup (updateStep embed conv acc a).1 s).isSome := by
  by_cases hs : s = a
  · subst hs
    unfold updateStep
    cases conv s with
    | error e => exact h
    | ok src =>
        dsimp only
        split
        · cases embed src with
          | error e => exact h
          | ok v => simp [alookup_aupdate_self]
        · exact h
  · rw [updateStep_lookup_ne embed conv acc a hs]
    exact h

/-- When the stored entry for `s` matches the freshly resolved text, the
iteration for `s` is a strict no-op. -/
theorem updateStep_noop (embed : EmbedFn) (conv : SymbolConverter)
    (acc : EMap × List (Symbol × String)) {s : Symbol} {e : SymbolEmbedding}
    (hm : alookup acc.1 s = some e)
    (hc : conv s = Except.ok e.source_code) :
    updateStep embed conv acc s = acc := by
  unfold updateStep
  rw [hc]
  dsimp only
  rw [hm]
  simp

/-- When embedding the freshly resolved text (if any) fails, the iteration
for `s` leaves the map unchanged. -/
theorem updateStep_fail (embed : EmbedFn) (conv : SymbolConverter)
    (acc : EMap × List (Symbol × String)) {s : Symbol}
    (h : ∀ t, conv s = Except.ok t → ∀ v, embed t ≠ Except.ok v) :
    (updateStep embed conv acc s).1 = acc.1 := by
  unfold updateStep
  cases hc : conv s with
  | error e => rfl
  | ok src =>
      dsimp only
      split
      · cases hembed : embed src with
        | error e => rfl
        | ok v => exact absurd hembed (h src hc v)
      · rfl

/-! ### Lemmas on the `update_embeddings` loop -/

/-- If the stored entry for `s` already matches the converter's text, the
whole loop keeps that entry intact and never records a provider call
attributed to `s`. -/
theorem updFold_noop (embed : EmbedFn) (conv : SymbolConverter)
    (l : List Symbol) :
    ∀ (acc : EMap × List (Symbol × String)) (s : Symbol)
      (e : SymbolEmbedding),
      alookup acc.1 s = some e → conv s = Except.ok e.source_code →
      alookup (l.foldl (updateStep embed conv) acc).1 s = some e ∧
      ∀ p ∈ (l.foldl (updateStep embed conv) acc).2, p.1 = s → p ∈ acc.2 := by
  induction l with
  | nil => exact fun acc s e hm _ => ⟨hm, fun p hp _ => hp⟩
  | cons a l ih =>
      intro acc s e hm hc
      rw [List.foldl_cons]
      by_cases ha : a = s
      · subst ha
        rw [updateStep_noop embed conv acc hm hc]
        exact ih acc a e hm hc
      · have hm' : alookup (updateStep embed conv acc a).1 s = some e := by
          rw [updateStep_lookup_ne embed conv acc a (fun h => ha h.symm)]
          exact hm
        obtain ⟨h1, h2⟩ := ih (updateStep embed conv acc a) s e hm' hc
        refine ⟨h1, fun p hp hps => ?_⟩
        rcases updateStep_calls_mem embed conv acc a p (h2 p hp hps) with h | h
        · exact h
        · exact absurd (hps ▸ h) (fun h' => ha h'.symm)

/-- Symbols outside the update list keep their lookup result verbatim. -/
theorem updFold_frame (embed : EmbedFn) (conv : SymbolConverter)
    (l : List Symbol) :
    ∀ (acc : EMap × List (Symbol × String)) (s : Symbol), s ∉ l →
      alookup (l.foldl (updateStep embed conv) acc).1 s = alookup acc.1 s := by
  induction l with
  | nil => exact fun acc s _ => rfl
  | cons a l ih =>
      intro acc s hs
      rw [List.foldl_cons,
        ih (updateStep embed conv acc a) s (fun h => hs (List.mem_cons_of_mem a h)),
        updateStep_lookup_ne embed conv acc a
          (fun h => hs (by rw [h]; exact List.mem_cons_self a l))]

/-- The loop never removes a key. -/
theorem updFold_mono (embed : EmbedFn) (conv : SymbolConverter)
    (l : List Symbol) :
    ∀ (acc : EMap × List (Symbol × String)) (s : Symbol),
      (alookup acc.1 s).isSome →
      (alookup (l.foldl (updateStep embed conv) acc).1 s).isSome := by
  induction l with
  | nil => exact fun acc s h => h
  | cons a l ih =>
      intro acc s h
      rw [List.foldl_cons]
      exact ih (updateStep embed conv acc a) s
        (updateStep_mono embed conv acc a h)

/-- A symbol of the update list that is new or stale, and whose resolution
and embedding succeed, ends up mapped to the freshly built entry. -/
theorem updFold_sets (embed : EmbedFn) (conv : SymbolConverter)
    (l : List Symbol) :
    ∀ (acc : EMap × List (Symbol × String)) (s : Symbol) (t : String)
      (v : List Rat), s ∈ l →
      conv s = Except.ok t → embed t = Except.ok v →
      (∀ e, alookup acc.1 s = some e → e.source_code ≠ t) →
      alookup (l.foldl (updateStep embed conv) acc).1 s =
        some ⟨s, v, t⟩ := by
  induction l with
  | nil => intro _ _ _ _ hs; exact absurd hs (List.not_mem_nil _)
  | cons a l ih =>
      intro acc s t v hs hc he hstale
      rw [List.foldl_cons]
      by_cases ha : a = s
      · subst ha
        have hstep : updateStep embed conv acc a =
            (aupdate acc.1 a ⟨a, v, t⟩, acc.2 ++ [(a, t)]) := by
          unfold updateStep
          rw [hc]
          dsimp only
          have hstale' :
              (match alookup acc.1 a with
                | none => true
                | some e => decide ¬(e.source_code = t)) = true := by
            cases hm : alookup acc.1 a with
            | none => rfl
            | some e => simpa using hstale e hm
          rw [if_pos hstale', he]
        rw [hstep]
        exact (updFold_noop embed conv l _ a ⟨a, v, t⟩
          (alookup_aupdate_self _ _ _) hc).1
      · have hs' : s ∈ l := by
          rcases List.mem_cons.mp hs with h | h
          · exact absurd h.symm ha
          · exact h
        refine ih (updateStep embed conv acc a) s t v hs' hc he ?_
        rw [updateStep_lookup_ne embed conv acc a (fun h => ha h.symm)]
        exact hstale

/-- A symbol whose resolution or embedding fails keeps its lookup result. -/
theorem updFold_fail (embed : EmbedFn) (conv : SymbolConverter)
    (l : List Symbol) :
    ∀ (acc : EMap × List (Symbol × String)) (s : Symbol),
      (∀ t, conv s = Except.ok t → ∀ v, embed t ≠ Except.ok v) →
      alookup (l.foldl (updateStep embed conv) acc).1 s = alookup acc.1 s := by
  induction l with
  | nil => exact fun acc s _ => rfl
  | cons a l ih =>
      intro acc s hfail
      rw [List.foldl_cons, ih (updateStep embed conv acc a) s hfail]
      by_cases ha : s = a
      · subst ha
        have : (updateStep embed conv acc s).1 = acc.1 :=
          updateStep_fail embed conv acc hfail
        rw [this]
      · exact updateStep_lookup_ne embed conv acc a ha

/-! ### Lemmas on the `_build_embedding_map` loop -/

theorem buildStep_lookup_ne (embed : EmbedFn) (conv : SymbolConverter)
    (m : EMap) (a : Symbol) {s : Symbol} (h : s ≠ a) :
    alookup (buildStep embed conv m a) s = alookup m s := by
  unfold buildStep
  cases conv a with
  | error e => rfl
  | ok src =>
      dsimp only
      cases embed src with
      | error e => rfl
      | ok v => exact alookup_aupdate_ne _ _ h

theorem buildStep_fail (embed : EmbedFn) (conv : SymbolConverter)
    (m : EMap) {s : Symbol}
    (h : ∀ t, conv s = Except.ok t → ∀ v, embed t ≠ Except.ok v) :
    buildStep embed conv m s = m := by
  unfold buildStep
  cases hc : conv s with
  | error e => rfl
  | ok src =>
      dsimp only
      cases hembed : embed src with
      | error e => rfl
      | ok v => exact absurd hembed (h src hc v)

theorem buildStep_success (embed : EmbedFn) (conv : SymbolConverter)
    (m : EMap) {s : Symbol} {t : String} {v : List Rat}
    (hc : conv s = Except.ok t) (he : embed t = Except.ok v) :
    buildStep embed conv m s = aupdate m s ⟨s, v, t⟩ := by
  unfold buildStep
  rw [hc]
  dsimp only
  rw [he]

theorem buildStep_mono (embed : EmbedFn) (conv : SymbolConverter)
    (m : EMap) (a : Symbol) {s : Symbol}
    (h : (alookup m s).isSome) :
    (alookup (buildStep embed conv m a) s).isSome := by
  by_cases hs : s = a
  · subst hs
    unfold buildStep
    cases conv s with
    | error e => exact h
    | ok src =>
        dsimp only
        cases embed src with
        | error e => exact h
        | ok v => simp [alookup_aupdate_self]
  · rw [buildStep_lookup_ne embed conv m a hs]
    exact h

theorem buildFold_frame (embed : EmbedFn) (conv : SymbolConverter)
    (l : List Symbol) :
    ∀ (m : EMap) (s : Symbol), s ∉ l →
      alookup (l.foldl (buildStep embed conv) m) s = alookup m s := by
  induction l with
  | nil => exact fun m s _ => rfl
  | cons a l ih =>
      intro m s hs
      rw [List.foldl_cons,
        ih (buildStep embed conv m a) s (fun h => hs (List.mem_cons_of_mem a h)),
        buildStep_lookup_ne embed conv m a
          (fun h => hs (by rw [h]; exact List.mem_cons_self a l))]

theorem buildFold_fail (embed : EmbedFn) (conv : SymbolConverter)
    (l : List Symbol) :
    ∀ (m : EMap) (s : Symbol),
      (∀ t, conv s = Except.ok t → ∀ v, embed t ≠ Except.ok v) →
      alookup (l.foldl (buildStep embed conv) m) s = alookup m s := by
  induction l with
  | nil => exact fun m s _ => rfl
  | cons a l ih =>
      intro m s hfail
      rw [List.foldl_cons, ih (buildStep embed conv m a) s hfail]
      by_cases ha : s = a
      · subst ha
        rw [buildStep_fail embed conv m hfail]
      · exact buildStep_lookup_ne embed conv m a ha

theorem buildFold_mono (embed : EmbedFn) (conv : SymbolConverter)
    (l : List Symbol) :
    ∀ (m : EMap) (s : Symbol), (alookup m s).isSome →
      (alookup (l.foldl (buildStep embed conv) m) s).isSome := by
  induction l with
  | nil => exact fun m s h => h
  | cons a l ih =>
      intro m s h
      rw [List.foldl_cons]
      exact ih (buildStep embed conv m a) s (buildStep_mono embed conv m a h)

theorem buildFold_success (embed : EmbedFn) (conv : SymbolConverter)
    (l : List Symbol) :
    ∀ (m : EMap) (s : Symbol) (t : String) (v : List Rat), s ∈ l →
      conv s = Except.ok t → embed t = Except.ok v →
      (alookup (l.foldl (buildStep embed conv) m) s).isSome := by
  induction l with
  | nil => intro _ _ _ _ hs; exact absurd hs (List.not_mem_nil _)
  | cons a l ih =>
      intro m s t v hs hc he
      rw [List.foldl_cons]
      by_cases ha : a = s
      · subst ha
        have hstep := buildStep_success embed conv m hc he
        refine buildFold_mono embed conv l _ a ?_
        rw [hstep]
        simp [alookup_aupdate_self]
      · have hs' : s ∈ l := by
          rcases List.mem_cons.mp hs with h | h
          · exact absurd h.symm ha
          · exact h
        exact ih (buildStep embed conv m a) s t v hs' hc he

/-! ### List-update and matrix lemmas -/

theorem length_lset {α : Type} (l : List α) (i : Nat) (v : α) :
    (lset l i v).length = l.length := by
  induction l generalizing i with
  | nil => rfl
  | cons h t ih =>
      cases i with
      | zero => rfl
      | succ n => simp [lset, ih]

theorem getD_lset_self {α : Type} (l : List α) (i : Nat) (v d : α)
    (h : i < l.length) : (lset l i v).getD i d = v := by
  induction l generalizing i with
  | nil => exact absurd h (Nat.not_lt_zero i)
  | cons a t ih =>
      cases i with
      | zero => rfl
      | succ n =>
          simp only [lset, List.getD_cons_succ]
          exact ih n (Nat.lt_of_succ_lt_succ h)

theorem getD_lset_ne {α : Type} (l : List α) (i j : Nat) (v d : α)
    (h : j ≠ i) : (lset l i v).getD j d = l.getD j d := by
  induction l generalizing i j with
  | nil => cases i <;> rfl
  | cons a t ih =>
      cases i with
      | zero =>
          cases j with
          | zero => exact absurd rfl h
          | succ n => rfl
      | succ n =>
          cases j with
          | zero => rfl
          | succ p =>
              simp only [lset, List.getD_cons_succ]
              exact ih n p (fun hpn => h (by rw [hpn]))

theorem mem_lset {α : Type} (l : List α) (i : Nat) (v : α) (r : α)
    (hr : r ∈ lset l i v) : r ∈ l ∨ r = v := by
  induction l generalizing i with
  | nil => cases hr
  | cons a t ih =>
      cases i with
      | zero =>
          rcases List.mem_cons.mp hr with h | h
          · exact Or.inr h
          · exact Or.inl (List.mem_cons_of_mem a h)
      | succ n =>
          rcases List.mem_cons.mp hr with h | h
          · exact Or.inl (h ▸ List.mem_cons_self a t)
          · rcases ih n h with h' | h'
            · exact Or.inl (List.mem_cons_of_mem a h')
            · exact Or.inr h'

theorem getD_mem {α : Type} (l : List α) (i : Nat) (d : α)
    (h : i < l.length) : l.getD i d ∈ l := by
  induction l generalizing i with
  | nil => exact absurd h (Nat.not_lt_zero i)
  | cons a t ih =>
      cases i with
      | zero => exact List.mem_cons_self a t
      | succ n =>
          exact List.mem_cons_of_mem a (ih n (Nat.lt_of_succ_lt_succ h))

theorem matShape_matSet {m : List (List Rat)} {n : Nat} (hm : matShape m n)
    {i : Nat} (hi : i < n) (j : Nat) (v : Rat) :
    matShape (matSet m i j v) n := by
  obtain ⟨hlen, hrows⟩ := hm
  constructor
  · rw [matSet, length_lset, hlen]
  · intro r hr
    rcases mem_lset _ _ _ _ hr with h | h
    · exact hrows r h
    · rw [h, length_lset]
      exact hrows _ (getD_mem m i [] (by rw [hlen]; exact hi))

theorem matEntry_matSet {m : List (List Rat)} {n : Nat} (hm : matShape m n)
    {i j : Nat} (hi : i < n) (hj : j < n) (v : Rat) (a b : Nat) :
    matEntry (matSet m i j v) a b =
      if a = i ∧ b = j then v else matEntry m a b := by
  obtain ⟨hlen, hrows⟩ := hm
  have hrowlen : (m.getD i []).length = n :=
    hrows _ (getD_mem m i [] (by rw [hlen]; exact hi))
  by_cases hai : a = i
  · subst hai
    rw [matEntry, matSet, getD_lset_self m a _ [] (by rw [hlen]; exact hi)]
    by_cases hbj : b = j
    · subst hbj
      rw [getD_lset_self _ b v 0 (by rw [hrowlen]; exact hj)]
      simp
    · rw [getD_lset_ne _ j b v 0 hbj]
      simp [hbj, matEntry]
  · rw [matEntry, matSet, getD_lset_ne m i a _ [] (fun h => hai h)]
    simp only [matEntry]
    have : ¬(a = i ∧ b = j) := fun h => hai h.1
    rw [if_neg this]

/-- One inner-loop iteration, characterised entry-wise. -/
theorem simStep_entry (sim : SimFn) (e : List (List Rat)) {n : Nat}
    {m : List (List Rat)} (hm : matShape m n) {i j : Nat}
    (hi : i < n) (hj : j < n) (a b : Nat) :
    matEntry (simStep sim e i m j) a b =
      if i < j ∧ a = i ∧ b = j then sim (e.getD i []) (e.getD j [])
      else if i < j ∧ a = j ∧ b = i then sim (e.getD i []) (e.getD j [])
      else matEntry m a b := by
  unfold simStep
  by_cases hij : i ≥ j
  · rw [if_pos hij]
    have h1 : ¬(i < j ∧ a = i ∧ b = j) := fun h => absurd h.1 (Nat.not_lt.mpr hij)
    have h2 : ¬(i < j ∧ a = j ∧ b = i) := fun h => absurd h.1 (Nat.not_lt.mpr hij)
    rw [if_neg h1, if_neg h2]
  · rw [if_neg hij]
    have hlt : i < j := Nat.lt_of_not_le hij
    have hne : i ≠ j := Nat.ne_of_lt hlt
    dsimp only
    have hm1 : matShape (matSet m i j (sim (e.getD i []) (e.getD j []))) n :=
      matShape_matSet hm hi j _
    have hmid : matEntry (matSet m i j (sim (e.getD i []) (e.getD j []))) i j =
        sim (e.getD i []) (e.getD j []) := by
      rw [matEntry_matSet hm hi hj]
      simp
    rw [hmid, matEntry_matSet hm1 hj hi, matEntry_matSet hm hi hj]
    by_cases h1 : a = j ∧ b = i
    · rw [if_pos h1]
      have : ¬(i < j ∧ a = i ∧ b = j) := by
        rintro ⟨_, rfl, rfl⟩
        exact hne h1.1
      rw [if_neg this, if_pos ⟨hlt, h1⟩]
    · rw [if_neg h1]
      by_cases h2 : a = i ∧ b = j
      · rw [if_pos h2, if_pos ⟨hlt, h2⟩]
      · rw [if_neg h2, if_neg (fun h : i < j ∧ a = i ∧ b = j => h2 h.2),
          if_neg (fun h : i < j ∧ a = j ∧ b = i => h1 h.2)]

theorem simStep_shape (sim : SimFn) (e : List (List Rat)) {n : Nat}
    {m : List (List Rat)} (hm : matShape m n) {i j : Nat}
    (hi : i < n) (hj : j < n) :
    matShape (simStep sim e i m j) n := by
  unfold simStep
  by_cases hij : i ≥ j
  · rwa [if_pos hij]
  · rw [if_neg hij]
    exact matShape_matSet (matShape_matSet hm hi _ _) hj _ _

theorem getD_replicate {α : Type} (n : Nat) (x d : α) (i : Nat) :
    (List.replicate n x).getD i d = if i < n then x else d := by
  induction n generalizing i with
  | zero => simp
  | succ k ih =>
      cases i with
      | zero => simp [List.replicate]
      | succ p =>
          simp only [List.replicate, List.getD_cons_succ, ih]
          by_cases h : p < k
          · rw [if_pos h, if_pos (Nat.succ_lt_succ h)]
          · rw [if_neg h, if_neg (fun h' => h (Nat.lt_of_succ_lt_succ h'))]

/-- The inner `for j in range(n)` loop, run up to `k`, entry-wise. -/
theorem innerFold_spec (sim : SimFn) (e : List (List Rat)) {n i : Nat}
    (hi : i < n) :
    ∀ (k : Nat), k ≤ n → ∀ (m : List (List Rat)), matShape m n →
      matShape ((List.range k).foldl (simStep sim e i) m) n ∧
      ∀ a b, matEntry ((List.range k).foldl (simStep sim e i) m) a b =
        if a = i ∧ i < b ∧ b < k then sim (e.getD i []) (e.getD b [])
        else if b = i ∧ i < a ∧ a < k then sim (e.getD i []) (e.getD a [])
        else matEntry m a b := by
  intro k
  induction k with
  | zero =>
      intro _ m hm
      refine ⟨hm, fun a b => ?_⟩
      rw [if_neg (fun h => Nat.not_lt_zero b h.2.2),
        if_neg (fun h => Nat.not_lt_zero a h.2.2)]
      rfl
  | succ k ih =>
      intro hk m hm
      have hk' : k ≤ n := Nat.le_of_succ_le hk
      have hkn : k < n := hk
      obtain ⟨ihShape, ihEntry⟩ := ih hk' m hm
      rw [List.range_succ, List.foldl_append, List.foldl_cons, List.foldl_nil]
      refine ⟨simStep_shape sim e ihShape hi hkn, fun a b => ?_⟩
      rw [simStep_entry sim e ihShape hi hkn a b, ihEntry a b]
      by_cases hbk : b = k
      · subst hbk
        by_cases hak : a = b
        · subst hak
          split_ifs <;> first | rfl | omega
        · split_ifs <;> first | rfl | omega
      · by_cases hak : a = k
        · subst hak
          split_ifs <;> first | rfl | omega
        · split_ifs <;> first | rfl | omega

/-- The outer `for i in range(n)` loop, run up to `K`, entry-wise. -/
theorem outerFold_spec (sim : SimFn) (e : List (List Rat)) {n : Nat} :
    ∀ (K : Nat), K ≤ n → ∀ (m : List (List Rat)), matShape m n →
      matShape ((List.range K).foldl
        (fun acc i => (List.range n).foldl (simStep sim e i) acc) m) n ∧
      ∀ a b, matEntry ((List.range K).foldl
          (fun acc i => (List.range n).foldl (simStep sim e i) acc) m) a b =
        if a < K ∧ a < b ∧ b < n then sim (e.getD a []) (e.getD b [])
        else if b < K ∧ b < a ∧ a < n then sim (e.getD b []) (e.getD a [])
        else matEntry m a b := by
  intro K
  induction K with
  | zero =>
      intro _ m hm
      refine ⟨hm, fun a b => ?_⟩
      rw [if_neg (fun h => Nat.not_lt_zero a h.1),
        if_neg (fun h => Nat.not_lt_zero b h.1)]
      rfl
  | succ K ih =>
      intro hK m hm
      have hK' : K ≤ n := Nat.le_of_succ_le hK
      have hKn : K < n := hK
      obtain ⟨ihShape, ihEntry⟩ := ih hK' m hm
      rw [List.range_succ, List.foldl_append, List.foldl_cons, List.foldl_nil]
      obtain ⟨innShape, innEntry⟩ :=
        innerFold_spec sim e hKn n (Nat.le_refl n) _ ihShape
      refine ⟨innShape, fun a b => ?_⟩
      rw [innEntry a b, ihEntry a b]
      by_cases hbK : b = K
      · subst hbK
        by_cases haK : a = b
        · subst haK
          split_ifs <;> first | rfl | omega
        · split_ifs <;> first | rfl | omega
      · by_cases haK : a = K
        · subst haK
          split_ifs <;> first | rfl | omega
        · split_ifs <;> first | rfl | omega

/-- `calculate_similarity_matrix`, entry-wise: an n×n matrix holding the
pairwise similarity off the diagonal and 0 on it. -/
theorem calculate_similarity_matrix_entry (sim : SimFn)
    (e : List (List Rat)) :
    matShape (calculate_similarity_matrix sim e) e.length ∧
    ∀ a b, matEntry (calculate_similarity_matrix sim e) a b =
      if a < b ∧ b < e.length then sim (e.getD a []) (e.getD b [])
      else if b < a ∧ a < e.length then sim (e.getD b []) (e.getD a [])
      else 0 := by
  have hinit : matShape
      (List.replicate e.length (List.replicate e.length (0 : Rat)))
      e.length := by
    constructor
    · exact List.length_replicate _ _
    · intro r hr
      rw [List.eq_of_mem_replicate hr]
      exact List.length_replicate _ _
  have hinitEntry : ∀ a b,
      matEntry (List.replicate e.length (List.replicate e.length (0 : Rat)))
        a b = 0 := by
    intro a b
    rw [matEntry, getD_replicate]
    by_cases h : a < e.length
    · rw [if_pos h, getD_replicate]
      by_cases h' : b < e.length
      · rw [if_pos h']
      · rw [if_neg h']
    · rw [if_neg h]
      rfl
  obtain ⟨hShape, hEntry⟩ :=
    outerFold_spec sim e e.length (Nat.le_refl _) _ hinit
  refine ⟨hShape, fun a b => ?_⟩
  have : matEntry (calculate_similarity_matrix sim e) a b =
      matEntry ((List.range e.length).foldl
        (fun acc i => (List.range e.length).foldl (simStep sim e i) acc)
        (List.replicate e.length (List.replicate e.length (0 : Rat)))) a b :=
    rfl
  rw [this, hEntry a b, hinitEntry a b]
  split_ifs <;> first | rfl | omega

/-! ### Claim theorems -/

theorem isExcludedKind_mem (k : PythonKinds) :
    isExcludedKind k = decide (k ∈ [PythonKinds.Local, PythonKinds.Value,
      PythonKinds.Meta, PythonKinds.MacroKind, PythonKinds.Parameter,
      PythonKinds.TypeParameter]) := by
  cases k <;> rfl

/-- C6: `_filter_symbols` returns exactly the input symbols, in their
original relative order, whose URI contains none of the literal substrings
`__init__`, `setup`, `local`, `test` and whose derived kind is none of
Local, Value, Meta, Macro, Parameter, TypeParameter.  (It is invoked from
`_build_embedding_map` — see `build_embedding_map` — and nowhere in
`update_embeddings`.) -/
theorem filter_symbols_spec (kindOf : KindFn) (l : List Symbol) :
    filter_symbols kindOf l = l.filter (fun s =>
      !(strContains s.uri "__init__") && !(strContains s.uri "setup") &&
      !(strContains s.uri "local") && !(strContains s.uri "test") &&
      !(decide (kindOf s ∈ [PythonKinds.Local, PythonKinds.Value,
        PythonKinds.Meta, PythonKinds.MacroKind, PythonKinds.Parameter,
        PythonKinds.TypeParameter]))) := by
  induction l with
  | nil => rfl
  | cons s rest ih =>
      by_cases h1 : strContains s.uri "__init__" = true
      · simp [filter_symbols, h1, ih]
      · by_cases h2 : strContains s.uri "setup" = true
        · simp [filter_symbols, h1, h2, ih]
        · by_cases h3 : strContains s.uri "local" = true
          · simp [filter_symbols, h1, h2, h3, ih]
          · by_cases h4 : strContains s.uri "test" = true
            · simp [filter_symbols, h1, h2, h3, h4, ih]
            · cases hkind : kindOf s <;>
                simp [filter_symbols, h1, h2, h3, h4, isExcludedKind, hkind, ih]

/-- C7: constructing with both mode flags set fails with the
conflicting-modes `ValueError`; build mode without `symbol_converter`, build
mode without `all_defined_symbols`, and load mode without `embedding_map`
each fail with a missing-required-argument `ValueError` naming the missing
argument. -/
theorem init_mode_errors (embed : EmbedFn) (kindOf : KindFn) :
    (∀ sc ads em, init embed kindOf true true sc ads em = Except.error
      (PyError.valueError
        "Cannot specify both build_new_embedding_map and load_embedding_map")) ∧
    (∀ ads em, init embed kindOf true false none ads em = Except.error
      (PyError.valueError "Missing required argument: symbol_converter")) ∧
    (∀ conv em, init embed kindOf true false (some conv) none em =
      Except.error
        (PyError.valueError "Missing required argument: all_defined_symbols")) ∧
    (∀ sc ads, init embed kindOf false true sc ads none = Except.error
      (PyError.valueError "Missing required argument: embedding_map")) :=
  ⟨fun _ _ _ => rfl, fun _ _ => rfl, fun _ _ => rfl, fun _ _ => rfl⟩

/-- C2: with n stored entries, `generate_similarity_matrix` returns an
n-by-n matrix with zero diagonal, symmetric, whose strict upper triangle
holds the provider's similarity of the i-th and j-th stored vectors in the
mapping's iteration order (the lower triangle being the mirror). -/
theorem generate_similarity_matrix_spec (sim : SimFn)
    (st : SymbolEmbeddingMap) (m : EMap)
    (hst : st.embedding_map = some m) :
    ∃ M st', generate_similarity_matrix sim st = Except.ok (M, st') ∧
      M.length = m.length ∧
      (∀ row ∈ M, row.length = m.length) ∧
      (∀ i, i < m.length → matEntry M i i = 0) ∧
      (∀ i j, matEntry M i j = matEntry M j i) ∧
      (∀ i j, i < j → j < m.length →
        matEntry M i j =
          sim ((m.map (fun kv => kv.2.vector)).getD i [])
              ((m.map (fun kv => kv.2.vector)).getD j [])) := by
  obtain ⟨⟨hlen, hrows⟩, hEntry⟩ :=
    calculate_similarity_matrix_entry sim (m.map (fun kv => kv.2.vector))
  have hlenm : (m.map (fun kv => kv.2.vector)).length = m.length := by simp
  refine ⟨calculate_similarity_matrix sim (m.map (fun kv => kv.2.vector)),
    { st with
      index_to_symbol := some (m.map Prod.fst).enum
      symbol_to_index :=
        some ((m.map Prod.fst).enum.map (fun p => (p.2, p.1))) },
    ?_, ?_, ?_, ?_, ?_, ?_⟩
  · simp only [generate_similarity_matrix, hst]
  · rw [hlen, hlenm]
  · intro row hrow
    rw [hrows row hrow, hlenm]
  · intro i _
    rw [hEntry i i, if_neg (fun h => Nat.lt_irrefl i h.1),
      if_neg (fun h => Nat.lt_irrefl i h.1)]
  · intro i j
    rw [hEntry i j, hEntry j i]
    split_ifs <;> first | rfl | omega
  · intro i j hij hjm
    rw [hEntry i j, if_pos ⟨hij, by rw [hlenm]; exact hjm⟩]

theorem generate_similarity_matrix_spec_witness :
    stW.embedding_map = some mapW ∧
    (∃ M st', generate_similarity_matrix simW stW = Except.ok (M, st') ∧
      M.length = mapW.length ∧
      (∀ row ∈ M, row.length = mapW.length) ∧
      (∀ i, i < mapW.length → matEntry M i i = 0) ∧
      (∀ i j, matEntry M i j = matEntry M j i) ∧
      (∀ i j, i < j → j < mapW.length →
        matEntry M i j =
          simW ((mapW.map (fun kv => kv.2.vector)).getD i [])
              ((mapW.map (fun kv => kv.2.vector)).getD j []))) :=
  ⟨rfl, generate_similarity_matrix_spec simW stW mapW rfl⟩

/-- C3: a symbol already stored with source text equal to the freshly
resolved text triggers no provider call attributed to it, and its entry
survives `update_embeddings` unchanged. -/
theorem update_embeddings_noop (embed : EmbedFn) (conv : SymbolConverter)
    (st : SymbolEmbeddingMap) (m : EMap) (l : List Symbol) (s : Symbol)
    (e : SymbolEmbedding)
    (hst : st.embedding_map = some m)
    (hm : alookup m s = some e)
    (hc : conv s = Except.ok e.source_code) :
    (∃ m', (update_embeddings embed st conv l).1.embedding_map = some m' ∧
      alookup m' s = some e) ∧
    ∀ x, (s, x) ∉ (update_embeddings embed st conv l).2 := by
  have hupd1 : (update_embeddings embed st conv l).1.embedding_map =
      some (l.foldl (updateStep embed conv) (m, [])).1 := by
    unfold update_embeddings
    rw [hst]
  have hupd2 : (update_embeddings embed st conv l).2 =
      (l.foldl (updateStep embed conv) (m, [])).2 := by
    unfold update_embeddings
    rw [hst]
  obtain ⟨h1, h2⟩ := updFold_noop embed conv l (m, []) s e hm hc
  refine ⟨⟨_, hupd1, h1⟩, fun x hx => ?_⟩
  rw [hupd2] at hx
  exact absurd (h2 (s, x) hx rfl) (List.not_mem_nil _)

theorem update_embeddings_noop_witness :
    (stW.embedding_map = some mapW ∧ alookup mapW symA = some embA ∧
      convW symA = Except.ok embA.source_code) ∧
    ((∃ m', (update_embeddings embedW stW convW [symA, symB]).1.embedding_map
        = some m' ∧ alookup m' symA = some embA) ∧
      ∀ x, (symA, x) ∉ (update_embeddings embedW stW convW [symA, symB]).2) :=
  ⟨⟨rfl, rfl, rfl⟩,
    update_embeddings_noop embedW convW stW mapW [symA, symB] symA embA
      rfl rfl rfl⟩

/-- C4: a symbol of the update list that is new to the map or whose stored
source text differs from the freshly resolved text `t` ends up, when
resolution and embedding succeed, mapped to a new entry carrying the symbol,
the provider's vector for `t`, and `t`. -/
theorem update_embeddings_reembed (embed : EmbedFn) (conv : SymbolConverter)
    (st : SymbolEmbeddingMap) (m : EMap) (l : List Symbol) (s : Symbol)
    (t : String) (v : List Rat)
    (hst : st.embedding_map = some m) (hs : s ∈ l)
    (hc : conv s = Except.ok t) (he : embed t = Except.ok v)
    (hstale : ∀ e, alookup m s = some e → e.source_code ≠ t) :
    ∃ m', (update_embeddings embed st conv l).1.embedding_map = some m' ∧
      alookup m' s = some ⟨s, v, t⟩ := by
  have hupd1 : (update_embeddings embed st conv l).1.embedding_map =
      some (l.foldl (updateStep embed conv) (m, [])).1 := by
    unfold update_embeddings
    rw [hst]
  exact ⟨_, hupd1, updFold_sets embed conv l (m, []) s t v hs hc he hstale⟩

theorem update_embeddings_reembed_witness :
    (stW.embedding_map = some mapW ∧ symC ∈ [symC] ∧
      convW symC = Except.ok "src_c" ∧
      embedW "src_c" = Except.ok [("src_c".length : Rat)] ∧
      (∀ e, alookup mapW symC = some e → e.source_code ≠ "src_c")) ∧
    (∃ m', (update_embeddings embedW stW convW [symC]).1.embedding_map
        = some m' ∧
      alookup m' symC = some ⟨symC, [("src_c".length : Rat)], "src_c"⟩) :=
  ⟨⟨rfl, List.mem_singleton.mpr rfl, rfl, rfl,
      fun _ he => Option.noConfusion he⟩,
    update_embeddings_reembed embedW convW stW mapW [symC] symC "src_c"
      [("src_c".length : Rat)] rfl (List.mem_singleton.mpr rfl) rfl rfl
      (fun _ he => Option.noConfusion he)⟩

/-- C10: `update_embeddings` leaves every entry whose key is outside the
update list unchanged and never removes a key from the map. -/
theorem update_embeddings_frame (embed : EmbedFn) (conv : SymbolConverter)
    (st : SymbolEmbeddingMap) (m : EMap) (l : List Symbol)
    (hst : st.embedding_map = some m) :
    ∃ m', (update_embeddings embed st conv l).1.embedding_map = some m' ∧
      (∀ s, s ∉ l → alookup m' s = alookup m s) ∧
      (∀ s, (alookup m s).isSome → (alookup m' s).isSome) := by
  have hupd1 : (update_embeddings embed st conv l).1.embedding_map =
      some (l.foldl (updateStep embed conv) (m, [])).1 := by
    unfold update_embeddings
    rw [hst]
  exact ⟨_, hupd1, fun s hs => updFold_frame embed conv l (m, []) s hs,
    fun s hs => updFold_mono embed conv l (m, []) s hs⟩

theorem update_embeddings_frame_witness :
    stW.embedding_map = some mapW ∧
    (∃ m', (update_embeddings embedW stW convW [symB]).1.embedding_map
        = some m' ∧
      (∀ s, s ∉ [symB] → alookup m' s = alookup mapW s) ∧
      (∀ s, (alookup mapW s).isSome → (alookup m' s).isSome)) :=
  ⟨rfl, update_embeddings_frame embedW convW stW mapW [symB] rfl⟩

/-- C5: both batch loops catch per-symbol failures and continue (they are
total functions, so no exception escapes).  A symbol has an entry after a
build exactly when it survives the filter and both resolution and embedding
succeed — failing symbols are simply omitted while all others are still
processed — and during an update a symbol whose resolution or embedding
fails keeps its previous lookup result unchanged. -/
theorem build_update_partial_failure (embed : EmbedFn) (kindOf : KindFn)
    (conv : SymbolConverter) :
    (∀ l s, (alookup (build_embedding_map embed kindOf conv l) s).isSome ↔
        (s ∈ filter_symbols kindOf l ∧
          ∃ t v, conv s = Except.ok t ∧ embed t = Except.ok v)) ∧
    (∀ (st : SymbolEmbeddingMap) (m : EMap) (l : List Symbol) (s : Symbol),
        st.embedding_map = some m →
        (∀ t, conv s = Except.ok t → ∀ v, embed t ≠ Except.ok v) →
        ∃ m', (update_embeddings embed st conv l).1.embedding_map = some m' ∧
          alookup m' s = alookup m s) := by
  constructor
  · intro l s
    constructor
    · intro h
      by_cases hmem : s ∈ filter_symbols kindOf l
      · refine ⟨hmem, ?_⟩
        by_contra hno
        have hfail : ∀ t, conv s = Except.ok t → ∀ v,
            embed t ≠ Except.ok v := by
          intro t ht v hv
          exact hno ⟨t, v, ht, hv⟩
        unfold build_embedding_map at h
        rw [buildFold_fail embed conv _ _ _ hfail] at h
        simp [alookup] at h
      · unfold build_embedding_map at h
        rw [buildFold_frame embed conv _ _ _ hmem] at h
        simp [alookup] at h
    · rintro ⟨hmem, t, v, ht, hv⟩
      unfold build_embedding_map
      exact buildFold_success embed conv _ _ s t v hmem ht hv
  · intro st m l s hst hfail
    have hupd1 : (update_embeddings embed st conv l).1.embedding_map =
        some (l.foldl (updateStep embed conv) (m, [])).1 := by
      unfold update_embeddings
      rw [hst]
    exact ⟨_, hupd1, updFold_fail embed conv l (m, []) s hfail⟩

theorem build_update_partial_failure_witness :
    (alookup (build_embedding_map embedW kindW convBadB [symA, symB, symC])
      symA).isSome ∧
    (∀ t, convW symX = Except.ok t → ∀ v, embedW t ≠ Except.ok v) ∧
    (∃ m', (update_embeddings embedW stW convW [symX]).1.embedding_map
        = some m' ∧
      alookup m' symX = alookup mapW symX) := by
  have hxfail : ∀ t, convW symX = Except.ok t → ∀ v,
      embedW t ≠ Except.ok v := by
    intro t ht
    rw [show convW symX = Except.error (PyError.otherError "unresolved")
      from rfl] at ht
    exact Except.noConfusion ht
  refine ⟨?_, hxfail, ?_⟩
  · exact ((build_update_partial_failure embedW kindW convBadB).1
      [symA, symB, symC] symA).mpr
      ⟨by decide, "src_a", [("src_a".length : Rat)], rfl, rfl⟩
  · exact (build_update_partial_failure embedW kindW convW).2
      stW mapW [symX] symX rfl hxfail

/-- C1: saving to a fresh path and loading it back succeeds and reconstructs
an embedding map with exactly the stored (symbol, vector, source text)
entries, the keys passing through their serialized string form and
`Symbol.from_string` (here even the insertion order survives). -/
theorem save_load_roundtrip (embed : EmbedFn) (kindOf : KindFn)
    (st : SymbolEmbeddingMap) (m : EMap) (fs : FS) (p : String)
    (hst : st.embedding_map = some m) (hfresh : alookup fs p = none) :
    (save st fs p).1 = Except.ok () ∧
    ∃ st', (load embed kindOf (save st fs p).2 p).1 = Except.ok st' ∧
      st'.embedding_map = some m := by
  have hsave : save st fs p =
      (Except.ok (), aupdate fs p (encodeEmbeddingMap m)) := by
    unfold save
    rw [hfresh, hst]
    rfl
  have hdecode : (encodeEmbeddingMap m).map
      (fun kv => (Symbol.from_string kv.1, kv.2)) = m := by
    unfold encodeEmbeddingMap
    rw [List.map_map]
    exact List.map_id m
  constructor
  · rw [hsave]
  · refine ⟨⟨some m, none, none⟩, ?_, rfl⟩
    rw [hsave]
    unfold load
    rw [alookup_aupdate_self]
    dsimp only
    rw [hdecode]
    rfl

theorem save_load_roundtrip_witness :
    (stW.embedding_map = some mapW ∧ alookup ([] : FS) "out" = none) ∧
    ((save stW [] "out").1 = Except.ok () ∧
      ∃ st', (load embedW kindW (save stW [] "out").2 "out").1 =
          Except.ok st' ∧
        st'.embedding_map = some mapW) :=
  ⟨⟨rfl, rfl⟩, save_load_roundtrip embedW kindW stW mapW [] "out" rfl rfl⟩

/-- C8: `save` on an existing path fails with the documented `ValueError`
and leaves the file system (hence the existing file's contents) untouched;
`load` on a missing path fails with the documented `ValueError` and writes
nothing. -/
theorem persistence_preconditions (embed : EmbedFn) (kindOf : KindFn)
    (st : SymbolEmbeddingMap) (fs : FS) (p : String) :
    ((alookup fs p).isSome →
      (save st fs p).1 = Except.error (PyError.valueError
        "output_embedding_path must be a path to a non-existing file.") ∧
      (save st fs p).2 = fs) ∧
    (alookup fs p = none →
      (load embed kindOf fs p).1 = Except.error (PyError.valueError
        "input_embedding_path must be a path to an existing file.") ∧
      (load embed kindOf fs p).2 = fs) := by
  constructor
  · intro h
    unfold save
    rw [if_pos h]
    exact ⟨rfl, rfl⟩
  · intro h
    unfold load
    rw [h]
    exact ⟨rfl, rfl⟩

theorem persistence_preconditions_witness :
    ((alookup fsW "out").isSome ∧ alookup ([] : FS) "miss" = none) ∧
    ((save stW fsW "out").1 = Except.error (PyError.valueError
        "output_embedding_path must be a path to a non-existing file.") ∧
      (save stW fsW "out").2 = fsW) ∧
    ((load embedW kindW [] "miss").1 = Except.error (PyError.valueError
        "input_embedding_path must be a path to an existing file.") ∧
      (load embedW kindW [] "miss").2 = []) :=
  ⟨⟨rfl, rfl⟩,
    (persistence_preconditions embedW kindW stW fsW "out").1 rfl,
    (persistence_preconditions embedW kindW stW [] "miss").2 rfl⟩

/-- C9 refuted as stated: with neither mode flag, construction succeeds with
`embedding_map` never set — and then `update_embeddings` cannot populate the
mapping, because the attribute access raises inside each iteration and is
caught: here both collaborators succeed on the symbol, yet the mapping stays
uninitialized after the call. -/
theorem neither_mode_counterexample :
    init embedW kindW false false none none none =
      Except.ok ⟨none, none, none⟩ ∧
    convW symA = Except.ok "src_a" ∧
    (∃ v, embedW "src_a" = Except.ok v) ∧
    (update_embeddings embedW ⟨none, none, none⟩ convW [symA]).1.embedding_map
      = none :=
  ⟨rfl, rfl, ⟨[("src_a".length : Rat)], rfl⟩, rfl⟩

/-- C9 (amended): constructing with neither mode raises no error and leaves
the mapping uninitialized; a subsequent `update_embeddings` call catches the
per-symbol attribute failures, makes no provider calls, and returns with the
mapping still uninitialized (it cannot populate it). -/
theorem neither_mode_spec (embed : EmbedFn) (kindOf : KindFn) :
    (∀ sc ads em, init embed kindOf false false sc ads em =
      Except.ok ⟨none, none, none⟩) ∧
    (∀ (st : SymbolEmbeddingMap) (conv : SymbolConverter) (l : List Symbol),
      st.embedding_map = none →
      update_embeddings embed st conv l = (st, [])) := by
  refine ⟨fun _ _ _ => rfl, fun st conv l h => ?_⟩
  unfold update_embeddings
  rw [h]

theorem neither_mode_spec_witness :
    (⟨none, none, none⟩ : SymbolEmbeddingMap).embedding_map = none ∧
    update_embeddings embedW ⟨none, none, none⟩ convW [symA] =
      (⟨none, none, none⟩, []) :=
  ⟨rfl, (neither_mode_spec embedW kindW).2 ⟨none, none, none⟩ convW [symA] rfl⟩

end AutomataSearch
